import Mathlib

/-!
Verification of `gitrollout/repo.py` (paperhub/git-rollout).

Shallow embedding:
* `TargetConfig` mirrors the Python class: a checkout root path, a list of
  name filters and an optional event command.  A compiled regular expression
  used with `filter.match(name)` (anchored at position 0) is embedded as its
  match predicate `String → Bool`;  the default filter list `[r".*"]` matches
  every name at position 0, hence `defaultFilters`.
* The stderr diagnostics, `subprocess.call` invocations, directory removals
  and clones are recorded as an explicit trace of `Action`s.
* The filesystem is a map from checkout paths to checkout contents
  (`FS := String → Option String`);  `shutil.rmtree` deletes an entry and
  a shallow clone from the mirror writes the mirror content of the ref.
* `Repo.get_diff` works on mappings from ref name to revision id, embedded
  as association lists `List (String × String)` (Python dicts);  the Python
  function builds four sets and returns them wrapped in lists of unspecified
  order, so the embedding returns the four `Finset`s themselves.
* `MirrorHub._apply_diff` can raise `ValueError`, hence an `Except` result.
-/

namespace GitRollout

/-- One observable side effect of the reconciler, in program order.
`diag` models the stderr print inside `is_valid_name`, `warn` the
stderr warning about an unexpected existing path inside `_add`. -/
inductive Action where
  | rmtree (path : String)
  | clone (path : String) (refName : String)
  | emit (cmd : String) (refType : String) (event : String)
      (name : String) (desc : Option String)
  | warn (path : String)
  | diag (name : String)
deriving DecidableEq

/-- Config for a branch/tag target (Python class `TargetConfig`):
checkout root `path`, name filters (each embedded as its anchored match
predicate), optional external event command. -/
structure TargetConfig where
  path : String
  filters : List (String → Bool)
  eventCmd : Option String

/-- The Python default `filters=None` becomes `[r".*"]`, and `.*` matched at
position 0 accepts every name. -/
def defaultFilters : List (String → Bool) := [fun _ => true]

/-- `TargetConfig.emit`: call `eventCmd` via `subprocess.call`.  A no-op when
no command is configured.  The produced trace records the invocation. -/
def TargetConfig.emit (cfg : TargetConfig) (refType event name : String)
    (desc : Option String) : List Action :=
  match cfg.eventCmd with
  | none => []
  | some cmd => [Action.emit cmd refType event name desc]

/-- `TargetConfig.emit` with the exit status that `subprocess.call` returns
made explicit.  The Python code discards it (`# TODO: check return code`)
and never raises, hence the result ignores `status` and is always `.ok`. -/
def TargetConfig.emitWithStatus (cfg : TargetConfig)
    (refType event name : String) (desc : Option String) (status : Int) :
    Except String (List Action) :=
  match cfg.eventCmd with
  | none => Except.ok []
  | some cmd => Except.ok [Action.emit cmd refType event name desc]

/-- A character matched by the class `[/$\0\n\t]` of the Python regex
`r"^\.|.*[/$\0\n\t]"` (inside a character class `$` is a literal dollar). -/
def nastyChar (c : Char) : Bool :=
  c = '/' || c = '$' || c = Char.ofNat 0 || c = '\n' || c = '\t'

/-- `re.search(r"^\.|.*[/$\0\n\t]", name) is not None`: without `MULTILINE`
the anchor `^` only matches at position 0, so the first alternative fires
exactly when the name begins with a dot;  the second fires exactly when some
character of the name lies in the class (searching anchors `.*[...]` at every
position, in particular at the offending character itself). -/
def nastyMatch (name : String) : Bool :=
  name.data.head? = some '.' || name.data.any nastyChar

/-- `TargetConfig.is_valid_name`: the name must match at least one filter;
then the nasty-character regex must not match, else a diagnostic is printed
on stderr and the name is rejected. -/
def TargetConfig.is_valid_name (cfg : TargetConfig) (name : String) :
    Bool × List Action :=
  if !(cfg.filters.any fun f => f name) then (false, [])
  else if nastyMatch name then (false, [Action.diag name])
  else (true, [])

/-- The validity predicate in the words of the specification, for comparison
with the code's `is_valid_name`: matches at least one pattern, does not begin
with `.`, and contains none of `/`, NUL, newline, tab (no dollar sign). -/
def specValidName (filters : List (String → Bool)) (name : String) : Bool :=
  (filters.any fun f => f name) && !(name.data.head? = some '.') &&
    !(name.data.any fun c => c = '/' || c = Char.ofNat 0 || c = '\n' || c = '\t')

/-! ## `Repo.get_diff` -/

/-- The dict returned by `Repo.get_diff`, with each Python set of ref names
kept as a set (the Python wraps each in a `list` of unspecified order). -/
structure RefDiff where
  removed : Finset String
  added : Finset String
  modified : Finset String
  unmodified : Finset String
deriving DecidableEq

/-- Key set of a ref-to-revision mapping (`set(d.keys())`). -/
def keysOf (m : List (String × String)) : Finset String :=
  (m.map Prod.fst).toFinset

/-- `Repo.get_diff(before, after)`: `removed` the before-only keys, `added`
the after-only keys, `modified` the common keys whose revision differs,
`unmodified` the remaining common keys. -/
def get_diff (before after : List (String × String)) : RefDiff :=
  let beforeSet := keysOf before
  let afterSet := keysOf after
  { removed := beforeSet \ afterSet
    added := afterSet \ beforeSet
    modified := (beforeSet ∩ afterSet).filter
      fun name => before.lookup name ≠ after.lookup name
    unmodified := (beforeSet ∩ afterSet) \
      ((beforeSet ∩ afterSet).filter
        fun name => before.lookup name ≠ after.lookup name) }

/-! ## `MirrorHub` and the checkout reconciler -/

/-- The checkout filesystem: which checkout path holds which content
(`os.path.exists` is definedness, `shutil.rmtree` deletes the entry). -/
def FS : Type := String → Option String

/-- `os.path.exists(path)`. -/
def FS.pathExists (fs : FS) (p : String) : Bool := (fs p).isSome

/-- `shutil.rmtree(path)`. -/
def FS.rmtree (fs : FS) (p : String) : FS :=
  fun q => if q = p then none else fs q

/-- `repo.clone(path, branch=name, depth=1)` materialises content `c`
(the mirror state of the ref) at `path`. -/
def FS.writeClone (fs : FS) (p c : String) : FS :=
  fun q => if q = p then some c else fs q

/-- `config.path + '/' + name`, the checkout directory of a ref. -/
def pathOf (cfg : TargetConfig) (name : String) : String :=
  cfg.path ++ "/" ++ name

/-- A diff as consumed by `MirrorHub._apply_diff`: the dict of four name
lists (`diff['removed']` etc.). -/
structure DiffDict where
  removed : List String
  added : List String
  modified : List String
  unmodified : List String
deriving DecidableEq

/-- `MirrorHub`: the per-namespace configs and the mirror repository, the
latter embedded as the content a shallow clone of ref `name` produces. -/
structure MirrorHub where
  branchesConfig : Option TargetConfig
  tagsConfig : Option TargetConfig
  mirror : String → String

/-- One iteration of the loop in `MirrorHub._remove`: skip invalid names;
delete the target dir if it exists, emitting pre-remove and post-remove
around the deletion. -/
def removeOne (refType : String) (cfg : TargetConfig) (name : String)
    (fs : FS) : FS × List Action :=
  let v := cfg.is_valid_name name
  if !v.1 then (fs, v.2)
  else
    let path := pathOf cfg name
    if fs.pathExists path then
      (fs.rmtree path,
        v.2 ++ cfg.emit refType "pre-remove" name
            (some ("about to remove path " ++ path))
          ++ [Action.rmtree path]
          ++ cfg.emit refType "post-remove" name
            (some ("removed path " ++ path)))
    else (fs, v.2)

/-- `MirrorHub._remove(refType, config, refNames)`. -/
def removeRefs (refType : String) (cfg : TargetConfig)
    (refNames : List String) (fs : FS) : FS × List Action :=
  match refNames with
  | [] => (fs, [])
  | n :: ns =>
    let r := removeOne refType cfg n fs
    let rest := removeRefs refType cfg ns r.1
    (rest.1, r.2 ++ rest.2)

/-- One iteration of the loop in `MirrorHub._add`: skip invalid names;
forcibly delete an unexpected existing dir with a warning; then emit
pre-add, shallow-clone from the mirror, emit post-add. -/
def MirrorHub.addOne (hub : MirrorHub) (refType : String)
    (cfg : TargetConfig) (name : String) (fs : FS) : FS × List Action :=
  let v := cfg.is_valid_name name
  if !v.1 then (fs, v.2)
  else
    let path := pathOf cfg name
    let forced : FS × List Action :=
      if fs.pathExists path then
        (fs.rmtree path, [Action.warn path, Action.rmtree path])
      else (fs, [])
    (forced.1.writeClone path (hub.mirror name),
      v.2 ++ forced.2
        ++ cfg.emit refType "pre-add" name
          (some ("about to clone to path " ++ path))
        ++ [Action.clone path name]
        ++ cfg.emit refType "post-add" name
          (some ("cloned to path " ++ path)))

/-- `MirrorHub._add(refType, config, refNames)`. -/
def MirrorHub.addRefs (hub : MirrorHub) (refType : String)
    (cfg : TargetConfig) (refNames : List String) (fs : FS) :
    FS × List Action :=
  match refNames with
  | [] => (fs, [])
  | n :: ns =>
    let r := hub.addOne refType cfg n fs
    let rest := hub.addRefs refType cfg ns r.1
    (rest.1, r.2 ++ rest.2)

/-- The two phases of `MirrorHub._apply_diff` once a config is selected:
remove all removed and modified refs, then add all modified and added refs. -/
def MirrorHub.applyWith (hub : MirrorHub) (refType : String)
    (cfg : TargetConfig) (d : DiffDict) (fs : FS) : FS × List Action :=
  let r := removeRefs refType cfg (d.removed ++ d.modified) fs
  let a := hub.addRefs refType cfg (d.modified ++ d.added) r.1
  (a.1, r.2 ++ a.2)

/-- `MirrorHub._apply_diff(refType, diff)`: select the config for the
refType, raising `ValueError` for any other refType; return unchanged when
no config is present; otherwise run the removal phase then the addition
phase. -/
def MirrorHub.apply_diff (hub : MirrorHub) (refType : String)
    (d : DiffDict) (fs : FS) : Except String (FS × List Action) :=
  if refType = "branches" then
    match hub.branchesConfig with
    | none => Except.ok (fs, [])
    | some cfg => Except.ok (hub.applyWith refType cfg d fs)
  else if refType = "tags" then
    match hub.tagsConfig with
    | none => Except.ok (fs, [])
    | some cfg => Except.ok (hub.applyWith refType cfg d fs)
  else
    Except.error "refType must be branches or tags"

/-! ## Trace projections and concrete scenarios -/

/-- The `(event, name)` projection of the emitted hook invocations of a
trace, in order. -/
def emitEvents (tr : List Action) : List (String × String) :=
  tr.filterMap fun a =>
    match a with
    | .emit _ _ e n _ => some (e, n)
    | _ => none

/-- Is the action a clone? -/
def Action.isClone (a : Action) : Bool :=
  match a with
  | .clone _ _ => true
  | _ => false

/-- Is the action a hook invocation with a remove event? -/
def Action.isRemoveEmit (a : Action) : Bool :=
  match a with
  | .emit _ _ e _ _ => e = "pre-remove" || e = "post-remove"
  | _ => false

/-- Does the action mutate the filesystem at path `p`? -/
def Action.mutatesAt (a : Action) (p : String) : Bool :=
  match a with
  | .rmtree q => q = p
  | .clone q _ => q = p
  | _ => false

/-- Target config of the concrete scenarios: default filters, a configured
hook. -/
def cfgC4 : TargetConfig := ⟨"checkouts", defaultFilters, some "hook"⟩

/-- Hub of the end-to-end scenario: after the fetch the mirror has
`main ↦ def` and `dev ↦ 111`. -/
def hubC4 : MirrorHub :=
  ⟨some cfgC4, none, fun n => if n = "main" then "def"
    else if n = "dev" then "111" else ""⟩

/-- Filesystem of the end-to-end scenario: only the old `main` checkout
(at revision `abc`) exists. -/
def fsC4 : FS := fun q => if q = "checkouts/main" then some "abc" else none

/-- Diff of the end-to-end scenario. -/
def dC4 : DiffDict := ⟨[], ["dev"], ["main"], []⟩

/-- Filesystem of the rename-collision scenario: only the old `x` checkout
exists. -/
def fsX : FS := fun q => if q = "checkouts/x" then some "old" else none

/-- Diff of the rename-collision scenario: `x` both removed and added. -/
def dX : DiffDict := ⟨["x"], ["x"], [], []⟩

/-- Hub of the idempotence scenario: every ref clones at content `c1`. -/
def hubV : MirrorHub := ⟨some cfgC4, none, fun _ => "c1"⟩

/-- Diff of the idempotence scenario: only `v1` added. -/
def dV1 : DiffDict := ⟨[], ["v1"], [], []⟩

/-- The empty checkout filesystem. -/
def fsEmpty : FS := fun _ => none

/-- Filesystem for the forced-delete witness: only `v1`'s checkout exists. -/
def fsV1 : FS := fun q => if q = "checkouts/v1" then some "c0" else none

/-! ## Theorems -/

/-- C1 (counterexample): the claimed characterisation of `is_valid_name`
fails at the name `"a$b"` under the default match-all filter: the name
matches the filter, does not begin with `.` and contains none of `/`, NUL,
newline, tab, yet the code rejects it, because the character class of the
Python regex `r"^\.|.*[/$\0\n\t]"` also contains a literal `$`. -/
theorem is_valid_name_spec_counterexample :
    (TargetConfig.is_valid_name ⟨"checkouts", defaultFilters, none⟩ "a$b").1
      = false ∧
    specValidName defaultFilters "a$b" = true := by
  decide

/-- C1 (amended): `is_valid_name` returns `True` iff the name matches at
least one configured pattern (anchored at position 0), does not begin with
`.`, and contains none of the characters `/`, `$`, NUL, newline, tab;  in
particular, under the default match-all filter, `"main"` is valid. -/
theorem is_valid_name_characterisation (cfg : TargetConfig) (name : String) :
    (cfg.is_valid_name name).1
      = ((cfg.filters.any fun f => f name)
          && !(name.data.head? = some '.') && !(name.data.any nastyChar))
    ∧ (TargetConfig.is_valid_name
        ⟨"checkouts", defaultFilters, none⟩ "main").1 = true := by
  constructor
  · unfold TargetConfig.is_valid_name nastyMatch
    cases ha : (cfg.filters.any fun f => f name) <;>
      by_cases hb : name.data.head? = some '.' <;>
        cases hc : name.data.any nastyChar <;>
          simp [ha, hb, hc]
  · decide

/-- C10: a name matching none of the configured patterns is rejected with no
diagnostic (the filter check returns before the unsafe-character check), and
a diagnostic is only ever printed for a name that matched some pattern. -/
theorem unmatched_name_silently_rejected (cfg : TargetConfig)
    (name : String) :
    ((cfg.filters.any fun f => f name) = false →
        cfg.is_valid_name name = (false, []))
    ∧ ((cfg.is_valid_name name).2 ≠ [] →
        (cfg.filters.any fun f => f name) = true) := by
  constructor
  · intro h
    simp [TargetConfig.is_valid_name, h]
  · intro h
    cases ha : (cfg.filters.any fun f => f name)
    · simp [TargetConfig.is_valid_name, ha] at h
    · rfl

/-- C10 (witness): the name `"a/b"` matches no pattern of the filter list
`[fun _ => false]`, and `is_valid_name` rejects it with an empty trace even
though it contains the unsafe character `/`. -/
theorem unmatched_name_silently_rejected_witness :
    TargetConfig.is_valid_name
      ⟨"checkouts", [fun _ => false], none⟩ "a/b" = (false, []) :=
  (unmatched_name_silently_rejected
    ⟨"checkouts", [fun _ => false], none⟩ "a/b").1 rfl

/-- C2: `get_diff` computes removed = keys(before) ∖ keys(after), added =
keys(after) ∖ keys(before), modified = common keys with differing revision,
unmodified = common keys with equal revision;  every name lies in exactly
one of the four buckets iff it lies in keys(before) ∪ keys(after) (so the
four sets are pairwise disjoint and cover the union);  and the empty/equal
mapping cases come out as claimed. -/
theorem get_diff_partitions (before after M : List (String × String))
    (n : String) :
    (get_diff before after).removed = keysOf before \ keysOf after
    ∧ (get_diff before after).added = keysOf after \ keysOf before
    ∧ (get_diff before after).modified
        = (keysOf before ∩ keysOf after).filter
            (fun k => before.lookup k ≠ after.lookup k)
    ∧ (get_diff before after).unmodified
        = (keysOf before ∩ keysOf after).filter
            (fun k => before.lookup k = after.lookup k)
    ∧ ((if n ∈ (get_diff before after).removed then 1 else 0)
        + (if n ∈ (get_diff before after).added then 1 else 0)
        + (if n ∈ (get_diff before after).modified then 1 else 0)
        + (if n ∈ (get_diff before after).unmodified then 1 else 0) : ℕ)
        = (if n ∈ keysOf before ∪ keysOf after then 1 else 0)
    ∧ get_diff [] M = ⟨∅, keysOf M, ∅, ∅⟩
    ∧ get_diff M [] = ⟨keysOf M, ∅, ∅, ∅⟩
    ∧ get_diff M M = ⟨∅, ∅, ∅, keysOf M⟩ := by
  refine ⟨rfl, rfl, rfl, ?_, ?_, ?_, ?_, ?_⟩
  · show (keysOf before ∩ keysOf after) \ _ = _
    ext k
    simp only [Finset.mem_sdiff, Finset.mem_filter, Finset.mem_inter]
    tauto
  · by_cases hB : n ∈ keysOf before <;>
      by_cases hA : n ∈ keysOf after <;>
        by_cases hp : before.lookup n = after.lookup n <;>
          simp [get_diff, hB, hA, hp]
  · show RefDiff.mk _ _ _ _ = _
    simp [get_diff, keysOf]
  · show RefDiff.mk _ _ _ _ = _
    simp [get_diff, keysOf]
  · show RefDiff.mk _ _ _ _ = _
    simp [get_diff, keysOf]


/-- C4: applying `{modified: [main], added: [dev]}` with `main`'s checkout
present and `dev`'s absent deletes the old `main` checkout, reclones `main`
at `def`, clones `dev` at `111`, and fires the hooks in exactly the order
pre-remove(main), post-remove(main), pre-add(main), post-add(main),
pre-add(dev), post-add(dev) — no remove events for `dev`. -/
theorem apply_diff_end_to_end :
    hubC4.apply_diff "branches" dC4 fsC4
      = Except.ok (hubC4.applyWith "branches" cfgC4 dC4 fsC4)
    ∧ (hubC4.applyWith "branches" cfgC4 dC4 fsC4).2
      = [Action.emit "hook" "branches" "pre-remove" "main"
           (some "about to remove path checkouts/main"),
         Action.rmtree "checkouts/main",
         Action.emit "hook" "branches" "post-remove" "main"
           (some "removed path checkouts/main"),
         Action.emit "hook" "branches" "pre-add" "main"
           (some "about to clone to path checkouts/main"),
         Action.clone "checkouts/main" "main",
         Action.emit "hook" "branches" "post-add" "main"
           (some "cloned to path checkouts/main"),
         Action.emit "hook" "branches" "pre-add" "dev"
           (some "about to clone to path checkouts/dev"),
         Action.clone "checkouts/dev" "dev",
         Action.emit "hook" "branches" "post-add" "dev"
           (some "cloned to path checkouts/dev")]
    ∧ emitEvents (hubC4.applyWith "branches" cfgC4 dC4 fsC4).2
      = [("pre-remove", "main"), ("post-remove", "main"),
         ("pre-add", "main"), ("post-add", "main"),
         ("pre-add", "dev"), ("post-add", "dev")]
    ∧ (hubC4.applyWith "branches" cfgC4 dC4 fsC4).1 "checkouts/main"
      = some "def"
    ∧ (hubC4.applyWith "branches" cfgC4 dC4 fsC4).1 "checkouts/dev"
      = some "111" := by
  refine ⟨rfl, ?_, ?_, ?_, ?_⟩ <;> decide

/-- C7: with no event command configured `emit` does nothing and returns
normally;  with a command configured the exit status of the subprocess is
not examined — the result is the same for every exit status — and `emit`
never raises. -/
theorem emit_ignores_exit_status (cfg : TargetConfig)
    (refType event name : String) (desc : Option String) (s₁ s₂ : Int) :
    (cfg.eventCmd = none →
        cfg.emitWithStatus refType event name desc s₁ = Except.ok [])
    ∧ cfg.emitWithStatus refType event name desc s₁
        = cfg.emitWithStatus refType event name desc s₂
    ∧ (cfg.emitWithStatus refType event name desc s₁).isOk = true := by
  refine ⟨fun h => ?_, rfl, ?_⟩
  · simp [TargetConfig.emitWithStatus, h]
  · cases hc : cfg.eventCmd <;> simp [TargetConfig.emitWithStatus, hc, Except.isOk, Except.toBool]

/-- C7 (witness): an unconfigured event command is a no-op at exit status 7. -/
theorem emit_ignores_exit_status_witness :
    TargetConfig.emitWithStatus ⟨"checkouts", defaultFilters, none⟩
      "branches" "pre-add" "main" none 7 = Except.ok [] :=
  (emit_ignores_exit_status ⟨"checkouts", defaultFilters, none⟩
    "branches" "pre-add" "main" none 7 7).1 rfl

/-- C8: `_apply_diff` with a refType other than `branches` or `tags` raises
`ValueError` (no filesystem state is produced, so nothing is read or
touched);  for the two accepted refTypes it always returns normally. -/
theorem apply_diff_refType_validation (hub : MirrorHub) (refType : String)
    (d : DiffDict) (fs : FS) :
    (refType ≠ "branches" → refType ≠ "tags" →
        hub.apply_diff refType d fs
          = Except.error "refType must be branches or tags")
    ∧ (refType = "branches" ∨ refType = "tags" →
        (hub.apply_diff refType d fs).isOk = true) := by
  constructor
  · intro h1 h2
    simp [MirrorHub.apply_diff, h1, h2]
  · rintro (rfl | rfl)
    · rw [MirrorHub.apply_diff, if_pos rfl]
      cases hb : hub.branchesConfig <;> rfl
    · rw [MirrorHub.apply_diff, if_neg (by decide), if_pos rfl]
      cases ht : hub.tagsConfig <;> rfl

/-- C8 (witness): refType `commits` is rejected with a `ValueError`, and
refType `branches` succeeds, on the end-to-end scenario. -/
theorem apply_diff_refType_validation_witness :
    hubC4.apply_diff "commits" dC4 fsC4
      = Except.error "refType must be branches or tags"
    ∧ (hubC4.apply_diff "branches" dC4 fsC4).isOk = true :=
  ⟨(apply_diff_refType_validation hubC4 "commits" dC4 fsC4).1
      (by decide) (by decide),
    (apply_diff_refType_validation hubC4 "branches" dC4 fsC4).2 (Or.inl rfl)⟩

/-- Strings with equal character data are equal. -/
theorem string_eq_of_data_eq {s t : String} (h : s.data = t.data) : s = t := by
  cases s; cases t; exact congrArg String.mk h

/-- Checkout paths of distinct names are distinct (for a fixed config). -/
theorem pathOf_inj (cfg : TargetConfig) {m n : String}
    (h : pathOf cfg m = pathOf cfg n) : m = n := by
  have hd := congrArg String.data h
  rw [pathOf, pathOf, String.data_append, String.data_append] at hd
  exact string_eq_of_data_eq (List.append_cancel_left hd)

/-- The trace of `is_valid_name` consists of diagnostics only. -/
theorem is_valid_name_trace_diag (cfg : TargetConfig) (nm : String) :
    ∀ a ∈ (cfg.is_valid_name nm).2, ∃ s, a = Action.diag s := by
  intro a ha
  unfold TargetConfig.is_valid_name at ha
  split at ha
  · simp at ha
  · split at ha
    · simp at ha
      exact ⟨nm, ha⟩
    · simp at ha

/-- The trace of `emit` consists of hook invocations with the given event
and name only. -/
theorem emit_trace_shape (cfg : TargetConfig) (rT e nm : String)
    (d : Option String) :
    ∀ a ∈ cfg.emit rT e nm d, ∃ c, a = Action.emit c rT e nm d := by
  intro a ha
  unfold TargetConfig.emit at ha
  cases hc : cfg.eventCmd <;> rw [hc] at ha
  · simp at ha
  · simp at ha
    exact ⟨_, ha⟩

/-- Every action traced by one removal step is a diagnostic, or concerns a
name that passed validation: the deletion of its checkout or a remove-event
hook invocation for it. -/
theorem removeOne_trace_mem (rT : String) (cfg : TargetConfig)
    (n : String) (fs : FS) (a : Action)
    (ha : a ∈ (removeOne rT cfg n fs).2) :
    (∃ s, a = Action.diag s)
    ∨ ((cfg.is_valid_name n).1 = true
        ∧ (a = Action.rmtree (pathOf cfg n)
            ∨ (∃ c d, a = Action.emit c rT "pre-remove" n d)
            ∨ (∃ c d, a = Action.emit c rT "post-remove" n d))) := by
  simp only [removeOne] at ha
  split at ha
  · exact Or.inl (is_valid_name_trace_diag cfg n a ha)
  · rename_i h
    have hv : (cfg.is_valid_name n).1 = true := by simpa using h
    split at ha
    · rcases List.mem_append.mp ha with ha | ha
      · rcases List.mem_append.mp ha with ha | ha
        · rcases List.mem_append.mp ha with ha | ha
          · exact Or.inl (is_valid_name_trace_diag cfg n a ha)
          · rcases emit_trace_shape cfg rT "pre-remove" n _ a ha with ⟨c, rfl⟩
            exact Or.inr ⟨hv, Or.inr (Or.inl ⟨c, _, rfl⟩)⟩
        · rw [List.mem_singleton] at ha
          exact Or.inr ⟨hv, Or.inl ha⟩
      · rcases emit_trace_shape cfg rT "post-remove" n _ a ha with ⟨c, rfl⟩
        exact Or.inr ⟨hv, Or.inr (Or.inr ⟨c, _, rfl⟩)⟩
    · exact Or.inl (is_valid_name_trace_diag cfg n a ha)

/-- Every action traced by one addition step is a diagnostic, or concerns a
name that passed validation: the forced-delete warning and deletion, the
clone, or an add-event hook invocation for it. -/
theorem addOne_trace_mem (hub : MirrorHub) (rT : String)
    (cfg : TargetConfig) (n : String) (fs : FS) (a : Action)
    (ha : a ∈ (hub.addOne rT cfg n fs).2) :
    (∃ s, a = Action.diag s)
    ∨ ((cfg.is_valid_name n).1 = true
        ∧ (a = Action.warn (pathOf cfg n)
            ∨ a = Action.rmtree (pathOf cfg n)
            ∨ a = Action.clone (pathOf cfg n) n
            ∨ (∃ c d, a = Action.emit c rT "pre-add" n d)
            ∨ (∃ c d, a = Action.emit c rT "post-add" n d))) := by
  simp only [MirrorHub.addOne] at ha
  split at ha
  · exact Or.inl (is_valid_name_trace_diag cfg n a ha)
  · rename_i h
    have hv : (cfg.is_valid_name n).1 = true := by simpa using h
    rcases List.mem_append.mp ha with ha | ha
    · rcases List.mem_append.mp ha with ha | ha
      · rcases List.mem_append.mp ha with ha | ha
        · rcases List.mem_append.mp ha with ha | ha
          · exact Or.inl (is_valid_name_trace_diag cfg n a ha)
          · split at ha
            · rcases List.mem_cons.mp ha with rfl | ha
              · exact Or.inr ⟨hv, Or.inl rfl⟩
              · rw [List.mem_singleton] at ha
                exact Or.inr ⟨hv, Or.inr (Or.inl ha)⟩
            · exact absurd ha (List.not_mem_nil a)
        · rcases emit_trace_shape cfg rT "pre-add" n _ a ha with ⟨c, rfl⟩
          exact Or.inr ⟨hv, Or.inr (Or.inr (Or.inr (Or.inl ⟨c, _, rfl⟩)))⟩
      · rw [List.mem_singleton] at ha
        exact Or.inr ⟨hv, Or.inr (Or.inr (Or.inl ha))⟩
    · rcases emit_trace_shape cfg rT "post-add" n _ a ha with ⟨c, rfl⟩
      exact Or.inr ⟨hv, Or.inr (Or.inr (Or.inr (Or.inr ⟨c, _, rfl⟩)))⟩

/-- A name whose validation succeeds produced no diagnostic. -/
theorem is_valid_name_trace_of_valid (cfg : TargetConfig) (nm : String)
    (h : (cfg.is_valid_name nm).1 = true) : (cfg.is_valid_name nm).2 = [] := by
  unfold TargetConfig.is_valid_name at h ⊢
  split_ifs at h ⊢ <;> simp_all

/-- Trace characterisation of the whole removal phase. -/
theorem removeRefs_trace_mem (rT : String) (cfg : TargetConfig)
    (names : List String) (fs : FS) (a : Action)
    (ha : a ∈ (removeRefs rT cfg names fs).2) :
    (∃ s, a = Action.diag s)
    ∨ ∃ n, n ∈ names ∧ (cfg.is_valid_name n).1 = true
        ∧ (a = Action.rmtree (pathOf cfg n)
            ∨ (∃ c d, a = Action.emit c rT "pre-remove" n d)
            ∨ (∃ c d, a = Action.emit c rT "post-remove" n d)) := by
  induction names generalizing fs with
  | nil => simp [removeRefs] at ha
  | cons n ns ih =>
    simp only [removeRefs] at ha
    rcases List.mem_append.mp ha with ha | ha
    · rcases removeOne_trace_mem rT cfg n fs a ha with h | ⟨hv, hsh⟩
      · exact Or.inl h
      · exact Or.inr ⟨n, List.mem_cons_self n ns, hv, hsh⟩
    · rcases ih _ ha with h | ⟨m, hm, rest⟩
      · exact Or.inl h
      · exact Or.inr ⟨m, List.mem_cons_of_mem n hm, rest⟩

/-- Trace characterisation of the whole addition phase. -/
theorem addRefs_trace_mem (hub : MirrorHub) (rT : String)
    (cfg : TargetConfig) (names : List String) (fs : FS) (a : Action)
    (ha : a ∈ (hub.addRefs rT cfg names fs).2) :
    (∃ s, a = Action.diag s)
    ∨ ∃ n, n ∈ names ∧ (cfg.is_valid_name n).1 = true
        ∧ (a = Action.warn (pathOf cfg n)
            ∨ a = Action.rmtree (pathOf cfg n)
            ∨ a = Action.clone (pathOf cfg n) n
            ∨ (∃ c d, a = Action.emit c rT "pre-add" n d)
            ∨ (∃ c d, a = Action.emit c rT "post-add" n d)) := by
  induction names generalizing fs with
  | nil => simp [MirrorHub.addRefs] at ha
  | cons n ns ih =>
    simp only [MirrorHub.addRefs] at ha
    rcases List.mem_append.mp ha with ha | ha
    · rcases addOne_trace_mem hub rT cfg n fs a ha with h | ⟨hv, hsh⟩
      · exact Or.inl h
      · exact Or.inr ⟨n, List.mem_cons_self n ns, hv, hsh⟩
    · rcases ih _ ha with h | ⟨m, hm, rest⟩
      · exact Or.inl h
      · exact Or.inr ⟨m, List.mem_cons_of_mem n hm, rest⟩

/-- C3: the trace of `_apply_diff` is the removal-phase trace followed by
the addition-phase trace, and the removal phase performs no clone, so every
checkout deletion of the removal phase (which handles the removed and
modified buckets) completes before any clone begins;  in particular, for
the rename-like diff `{removed: [x], added: [x]}` with `x`'s checkout
present, the deletion of `x`'s directory precedes the clone of `x`. -/
theorem removals_complete_before_additions (hub : MirrorHub)
    (refType : String) (cfg : TargetConfig) (d : DiffDict) (fs : FS) :
    (hub.applyWith refType cfg d fs).2
      = (removeRefs refType cfg (d.removed ++ d.modified) fs).2
        ++ (hub.addRefs refType cfg (d.modified ++ d.added)
              (removeRefs refType cfg (d.removed ++ d.modified) fs).1).2
    ∧ ((removeRefs refType cfg (d.removed ++ d.modified) fs).2.all
        fun a => !a.isClone) = true
    ∧ ((hubC4.applyWith "branches" cfgC4 dX fsX).2.findIdx
          (fun a => a = Action.rmtree "checkouts/x")
        < (hubC4.applyWith "branches" cfgC4 dX fsX).2.findIdx
          (fun a => a = Action.clone "checkouts/x" "x")) := by
  refine ⟨rfl, ?_, by decide⟩
  rw [List.all_eq_true]
  intro a ha
  rcases removeRefs_trace_mem refType cfg _ fs a ha with ⟨s, rfl⟩ | ⟨n, _, _, h3⟩
  · rfl
  · rcases h3 with rfl | ⟨c, dd, rfl⟩ | ⟨c, dd, rfl⟩ <;> rfl

/-- C9: the addition phase never emits a pre-remove or post-remove event;
when `_add` meets an unexpected existing directory for a valid name, its
trace is exactly the warning, the forced deletion, then pre-add, clone,
post-add — no remove events around the forced deletion. -/
theorem add_phase_never_emits_remove_events (hub : MirrorHub)
    (refType : String) (cfg : TargetConfig) (names : List String) (fs : FS)
    (name : String) :
    ((hub.addRefs refType cfg names fs).2.all fun a => !a.isRemoveEmit) = true
    ∧ ((cfg.is_valid_name name).1 = true →
        fs.pathExists (pathOf cfg name) = true →
        (hub.addOne refType cfg name fs).2
          = [Action.warn (pathOf cfg name), Action.rmtree (pathOf cfg name)]
            ++ cfg.emit refType "pre-add" name
                (some ("about to clone to path " ++ pathOf cfg name))
            ++ [Action.clone (pathOf cfg name) name]
            ++ cfg.emit refType "post-add" name
                (some ("cloned to path " ++ pathOf cfg name))) := by
  constructor
  · rw [List.all_eq_true]
    intro a ha
    rcases addRefs_trace_mem hub refType cfg names fs a ha
      with ⟨s, rfl⟩ | ⟨n, _, _, h3⟩
    · rfl
    · rcases h3 with rfl | rfl | rfl | ⟨c, dd, rfl⟩ | ⟨c, dd, rfl⟩ <;> rfl
  · intro hv hex
    simp only [MirrorHub.addOne]
    rw [is_valid_name_trace_of_valid cfg name hv]
    simp [hv, hex]

/-- C9 (witness): the forced-delete path at name `v1` with its checkout
unexpectedly present. -/
theorem add_phase_never_emits_remove_events_witness :
    (hubV.addOne "branches" cfgC4 "v1" fsV1).2
      = [Action.warn (pathOf cfgC4 "v1"), Action.rmtree (pathOf cfgC4 "v1")]
        ++ cfgC4.emit "branches" "pre-add" "v1"
            (some ("about to clone to path " ++ pathOf cfgC4 "v1"))
        ++ [Action.clone (pathOf cfgC4 "v1") "v1"]
        ++ cfgC4.emit "branches" "post-add" "v1"
            (some ("cloned to path " ++ pathOf cfgC4 "v1")) :=
  (add_phase_never_emits_remove_events hubV "branches" cfgC4 [] fsV1 "v1").2
    (by decide) (by decide)

/-- C5: for a name rejected by validation, the whole reconciliation never
mutates the filesystem at that name's target path, and the single removal
and addition steps for that name leave the filesystem untouched. -/
theorem no_mutation_for_invalid_name (hub : MirrorHub) (refType : String)
    (cfg : TargetConfig) (d : DiffDict) (fs : FS) (name : String)
    (hinv : (cfg.is_valid_name name).1 = false) :
    ((hub.applyWith refType cfg d fs).2.all
        fun a => !(a.mutatesAt (pathOf cfg name))) = true
    ∧ (removeOne refType cfg name fs).1 = fs
    ∧ (hub.addOne refType cfg name fs).1 = fs := by
  refine ⟨?_, by simp [removeOne, hinv], by simp [MirrorHub.addOne, hinv]⟩
  rw [List.all_eq_true]
  intro a ha
  have hap : (hub.applyWith refType cfg d fs).2
      = (removeRefs refType cfg (d.removed ++ d.modified) fs).2
        ++ (hub.addRefs refType cfg (d.modified ++ d.added)
              (removeRefs refType cfg (d.removed ++ d.modified) fs).1).2 := rfl
  rw [hap] at ha
  have key : ∀ m : String, (cfg.is_valid_name m).1 = true →
      pathOf cfg m ≠ pathOf cfg name := by
    intro m hv hh
    rw [pathOf_inj cfg hh] at hv
    rw [hv] at hinv
    exact Bool.noConfusion hinv
  rcases List.mem_append.mp ha with ha | ha
  · rcases removeRefs_trace_mem refType cfg _ fs a ha
      with ⟨s, rfl⟩ | ⟨n, _, hv, h3⟩
    · rfl
    · rcases h3 with rfl | ⟨c, dd, rfl⟩ | ⟨c, dd, rfl⟩ <;>
        simp [Action.mutatesAt, key n hv]
  · rcases addRefs_trace_mem hub refType cfg _ _ a ha
      with ⟨s, rfl⟩ | ⟨n, _, hv, h3⟩
    · rfl
    · rcases h3 with rfl | rfl | rfl | ⟨c, dd, rfl⟩ | ⟨c, dd, rfl⟩ <;>
        simp [Action.mutatesAt, key n hv]

/-- C5 (witness): the invalid name `.hidden` is never the target of a
mutation in the end-to-end scenario, and its removal/addition steps leave
the filesystem unchanged. -/
theorem no_mutation_for_invalid_name_witness :
    ((hubC4.applyWith "branches" cfgC4 dC4 fsC4).2.all
        fun a => !(a.mutatesAt (pathOf cfgC4 ".hidden"))) = true
    ∧ (removeOne "branches" cfgC4 ".hidden" fsC4).1 = fsC4
    ∧ (hubC4.addOne "branches" cfgC4 ".hidden" fsC4).1 = fsC4 :=
  no_mutation_for_invalid_name hubC4 "branches" cfgC4 dC4 fsC4 ".hidden"
    (by decide)

/-- Does processing name `n` touch path `q`: `n` passes validation and its
checkout directory is `q`. -/
def hits (cfg : TargetConfig) (q n : String) : Bool :=
  (cfg.is_valid_name n).1 && decide (pathOf cfg n = q)

/-- Pointwise effect of one removal step: the path of a valid processed
name is absent afterwards (whether or not it existed), everything else is
untouched. -/
theorem removeOne_fs (rT : String) (cfg : TargetConfig) (n : String)
    (fs : FS) (q : String) :
    (removeOne rT cfg n fs).1 q = if hits cfg q n then none else fs q := by
  simp only [removeOne]
  cases hv : (cfg.is_valid_name n).1
  · simp [hits, hv]
  · cases he : fs.pathExists (pathOf cfg n)
    · by_cases hq : pathOf cfg n = q
      · subst hq
        have hfn : fs (pathOf cfg n) = none := by
          cases hfp : fs (pathOf cfg n)
          · rfl
          · simp [FS.pathExists, hfp] at he
        simp [hits, hv, hfn]
      · simp [hits, hv, hq]
    · by_cases hq : pathOf cfg n = q
      · subst hq
        simp [hits, hv, FS.rmtree]
      · have hq' : q ≠ pathOf cfg n := fun h => hq h.symm
        simp [hits, hv, hq, FS.rmtree, hq']

/-- Pointwise effect of one addition step: the path of a valid processed
name holds the mirror content afterwards, everything else is untouched. -/
theorem addOne_fs (hub : MirrorHub) (rT : String) (cfg : TargetConfig)
    (n : String) (fs : FS) (q : String) :
    (hub.addOne rT cfg n fs).1 q
      = if hits cfg q n then some (hub.mirror n) else fs q := by
  simp only [MirrorHub.addOne]
  cases hv : (cfg.is_valid_name n).1
  · simp [hits, hv]
  · by_cases hq : pathOf cfg n = q
    · subst hq
      simp [hits, hv, FS.writeClone]
    · have hq' : q ≠ pathOf cfg n := fun h => hq h.symm
      cases he : fs.pathExists (pathOf cfg n) <;>
        simp [hits, hv, hq, FS.writeClone, FS.rmtree, hq']

/-- Pointwise effect of the removal phase. -/
theorem removeRefs_fs (rT : String) (cfg : TargetConfig)
    (names : List String) (fs : FS) (q : String) :
    (removeRefs rT cfg names fs).1 q
      = if names.any (hits cfg q) then none else fs q := by
  induction names generalizing fs with
  | nil => simp [removeRefs]
  | cons n ns ih =>
    simp only [removeRefs]
    rw [ih, removeOne_fs]
    cases hn : hits cfg q n <;> cases hns : ns.any (hits cfg q) <;>
      simp [List.any_cons, hn, hns]

/-- Pointwise effect of the addition phase: the last valid processed name
whose checkout directory is `q` wins, else `q` is untouched. -/
theorem addRefs_fs (hub : MirrorHub) (rT : String) (cfg : TargetConfig)
    (names : List String) (fs : FS) (q : String) :
    (hub.addRefs rT cfg names fs).1 q
      = match names.reverse.find? (hits cfg q) with
        | some n => some (hub.mirror n)
        | none => fs q := by
  induction names generalizing fs with
  | nil => simp [MirrorHub.addRefs]
  | cons n ns ih =>
    simp only [MirrorHub.addRefs]
    rw [ih, addOne_fs, List.reverse_cons, List.find?_append]
    cases hf : ns.reverse.find? (hits cfg q)
    · cases hn : hits cfg q n <;> simp [List.find?, hn, Option.or]
    · simp [Option.or]

/-- Pointwise closed form of the whole `_apply_diff` pass. -/
theorem applyWith_fs (hub : MirrorHub) (refType : String)
    (cfg : TargetConfig) (d : DiffDict) (fs : FS) (q : String) :
    (hub.applyWith refType cfg d fs).1 q
      = match (d.modified ++ d.added).reverse.find? (hits cfg q) with
        | some n => some (hub.mirror n)
        | none =>
          if (d.removed ++ d.modified).any (hits cfg q) then none
          else fs q := by
  show (hub.addRefs refType cfg (d.modified ++ d.added)
      (removeRefs refType cfg (d.removed ++ d.modified) fs).1).1 q = _
  rw [addRefs_fs]
  cases hf : (d.modified ++ d.added).reverse.find? (hits cfg q)
  · simp only
    exact removeRefs_fs refType cfg _ fs q
  · simp only

/-- C6: applying the same diff twice leaves the filesystem in exactly the
state one application leaves it in (pointwise, for every path);  in the
concrete `{added: [v1]}` scenario the pass raises no error, one run and two
runs both leave exactly the clean `v1` checkout, and the second run goes
through the existing-directory warning path. -/
theorem apply_diff_idempotent (hub : MirrorHub) (refType : String)
    (cfg : TargetConfig) (d : DiffDict) (fs : FS) (q : String) :
    (hub.applyWith refType cfg d
        (hub.applyWith refType cfg d fs).1).1 q
      = (hub.applyWith refType cfg d fs).1 q
    ∧ (hubV.apply_diff "branches" dV1 fsEmpty).isOk = true
    ∧ (hubV.applyWith "branches" cfgC4 dV1 fsEmpty).1 "checkouts/v1"
        = some "c1"
    ∧ (hubV.applyWith "branches" cfgC4 dV1
        (hubV.applyWith "branches" cfgC4 dV1 fsEmpty).1).1 "checkouts/v1"
        = some "c1"
    ∧ ((hubV.applyWith "branches" cfgC4 dV1
          (hubV.applyWith "branches" cfgC4 dV1 fsEmpty).1).2.any
        fun a => a = Action.warn "checkouts/v1") = true := by
  refine ⟨?_, rfl, by decide, by decide, by decide⟩
  rw [applyWith_fs hub refType cfg d ((hub.applyWith refType cfg d fs).1) q,
    applyWith_fs hub refType cfg d fs q]
  cases hf : (d.modified ++ d.added).reverse.find? (hits cfg q)
  · cases hany : (d.removed ++ d.modified).any (hits cfg q)
    · have h1 : (hub.applyWith refType cfg d fs).1 q = fs q := by
        rw [applyWith_fs hub refType cfg d fs q, hf]
        simp [hany]
      simp [hany, h1]
    · simp [hany]
  · simp

end GitRollout
